import Mathlib

/-!
Verification development for the solfege-tuner repository.

The pure note/solfege module (src/utils/Solfege.ts) is embedded as computable
Lean functions over `String` and `List String`; JavaScript array behaviours
(`indexOf` returning -1, indexing out of bounds returning `undefined`) are
made explicit via `Int` indices and `Option String` results.

The detection scheduler of src/App.tsx (updatePitch / startLoop / stopLoop /
stopAnalysing / init and the root-change effect) is embedded as a state
machine: the component state, the module-level audio objects and the set of
outstanding animation-frame requests form a `SchedState`, and the
user/browser events drive a step function.  Animation-frame callbacks are
closures capturing the render-time `root`, so each outstanding request is
recorded together with the root it captured.

The autocorrelation estimator (AutoCorrelate.js) is not part of the sources
available here; it is modelled from the specification (see `estimate`).
-/

namespace SolfegeTuner

/-- The canonical flat chromatic list, from src/utils/Solfege.ts. -/
def flatChromatics : List String :=
  ["C", "Db", "D", "Eb", "E", "F", "Gb", "G", "Ab", "A", "Bb", "B"]

/-- The sharp chromatic list, from src/utils/Solfege.ts. -/
def sharpChromatics : List String :=
  ["C", "C#", "D", "D#", "E", "F"] ++ ["F#", "G", "G#", "A", "A#", "B"]

/-- The fixed solfege syllable table, from src/utils/Solfege.ts. -/
def solfegeSyllables : List String :=
  ["do", "ra", "re", "me", "mi", "fa", "se", "sol", "le", "la", "te", "ti"]

/-- JavaScript `Array.prototype.indexOf`: first index of `x` under strict
equality, or -1 when absent. -/
def jsIndexOf (l : List String) (x : String) : Int :=
  match l.findIdx? (fun y => y == x) with
  | some i => (i : Int)
  | none => -1

/-- JavaScript array read `l[i]` for an integer index: `undefined` (`none`)
for a negative or out-of-bounds index. -/
def jsArrayGet (l : List String) (i : Int) : Option String :=
  if i < 0 then none else l.get? i.toNat

/-- `note.replace(/\d+/g, "")` from getSolfege: removes every decimal digit
character (removing maximal digit runs is the same as removing each digit). -/
def stripDigits (note : String) : String :=
  String.mk (note.data.filter (fun c => !c.isDigit))

/-- The start-index selection of getChromaticScale (src/utils/Solfege.ts
lines 53-61): `let startIndex = 0` then matched against the flat list first,
then the sharp list.  `List.indexOf` is only consulted under the
corresponding `contains` guard, exactly as in the source. -/
def startIndexOf (root : String) : Nat :=
  if flatChromatics.contains root then flatChromatics.indexOf root
  else if sharpChromatics.contains root then sharpChromatics.indexOf root
  else 0

/-- getChromaticScale (src/utils/Solfege.ts lines 52-72): builds the flat
chromatic scale starting from the root by pushing
`flatChromatics[(startIndex + i) % flatChromatics.length]` for each
`i < flatChromatics.length`.  The index is always in bounds, so the `getD`
default is never used. -/
def getChromaticScale (root : String) : List String :=
  let startIndex := startIndexOf root
  (List.range flatChromatics.length).map
    (fun i => flatChromatics.getD ((startIndex + i) % flatChromatics.length) "")

/-- getSolfege (src/utils/Solfege.ts lines 85-98): rotates the chromatic
scale to the root, strips digits from the note, looks the cleaned note up
with `indexOf` (-1 when absent) and reads `solfegeSyllables[noteIndex]`
(JavaScript: `undefined` for index -1). -/
def getSolfege (note root : String) : Option String :=
  let chromaticScale := getChromaticScale root
  let cleanNote := stripDigits note
  let noteIndex := jsIndexOf chromaticScale cleanNote
  jsArrayGet solfegeSyllables noteIndex



/-- State of the detection scheduler in src/App.tsx, together with the part
of the browser environment it interacts with.  `requestId` is the
`requestId` ref (the "semaphore"), `pending` is the queue of outstanding
`requestAnimationFrame` requests held by the browser, each recorded with the
render-time `root` captured by the registered `updatePitch` closure, and
`nextId` is the browser's fresh request-id counter (animation-frame ids are
positive).  `connected` is whether `mediaStreamSource.current` is set,
`graphConnected` whether the stream node is connected to the analyser, and
`pitch`, `note`, `solfege` are the published React state fields.  `pubs` is
the log of publications, each recording the note and the root used in the
`setSolfege(getSolfege(note, root))` call of that tick. -/
structure SchedState where
  connected : Bool
  graphConnected : Bool
  started : Bool
  root : String
  requestId : Option Nat
  pending : List (Nat × String)
  nextId : Nat
  pitch : ℚ
  note : String
  solfege : Option String
  pubs : List (String × String)

/-- startLoop (src/App.tsx lines 123-130): requests one more animation
frame, storing its id in the ref, if and only if the ref is currently
empty.  `capturedRoot` is the root captured by the `updatePitch` closure
being registered. -/
def startLoop (capturedRoot : String) (s : SchedState) : SchedState :=
  if s.requestId = none then
    { s with requestId := some s.nextId,
             pending := s.pending ++ [(s.nextId, capturedRoot)],
             nextId := s.nextId + 1 }
  else s

/-- stopLoop (src/App.tsx lines 135-142): if the ref holds a request id,
cancels that animation-frame request and clears the ref. -/
def stopLoop (s : SchedState) : SchedState :=
  match s.requestId with
  | some id => { s with requestId := none,
                        pending := s.pending.filter (fun p => p.1 ≠ id) }
  | none => s

/-- The valid-pitch test of updatePitch (src/App.tsx lines 84-86):
JavaScript `if (pitch)` (a number is truthy iff nonzero) followed by
`pitch < 7000 && pitch > -1`.  The autocorrelation estimator reports
"undetected" as -1, which this test rejects. -/
def validPitch (est : ℚ) : Prop := est ≠ 0 ∧ -1 < est ∧ est < 7000

instance (est : ℚ) : Decidable (validPitch est) := by
  unfold validPitch
  infer_instance

/-- updatePitch (src/App.tsx lines 66-98), parameterized by the note namer
`noteOf` (the external `Note.fromFreq` of the tonal library) and by the
pitch estimate `est` the autocorrelation returns for this tick's frame.
On entry the request ref is cleared ("updatePitch() not in use"); the
analyser is a module-level singleton and always present; if the estimate
passes the validity test the three state fields are published using the
closure's `capturedRoot`; finally startLoop is invoked. -/
def updatePitch (noteOf : ℚ → String) (capturedRoot : String) (est : ℚ)
    (s : SchedState) : SchedState :=
  let s1 := { s with requestId := none }
  let s2 :=
    if validPitch est then
      let n := noteOf est
      { s1 with pitch := est, note := n,
                solfege := getSolfege n capturedRoot,
                pubs := s1.pubs ++ [(n, capturedRoot)] }
    else s1
  startLoop capturedRoot s2

/-- stopAnalysing (src/App.tsx lines 151-155): stopLoop, then disconnect
the media stream source from the analyser, then clear the started flag. -/
def stopAnalysing (s : SchedState) : SchedState :=
  let s1 := stopLoop s
  { s1 with graphConnected := false, started := false }

/-- init (src/App.tsx lines 104-117): resume the audio context (not
modelled), set the started flag, and either request the microphone (the
connection completes later, as the `Ev.connectMedia` event) or — when
`mediaStreamSource.current` already exists — reconnect it to the analyser
and run updatePitch at once with the current render's root. -/
def initStep (noteOf : ℚ → String) (est : ℚ) (s : SchedState) : SchedState :=
  let s1 := { s with started := true }
  if s1.connected then
    updatePitch noteOf s1.root est { s1 with graphConnected := true }
  else s1

/-- The root-change effect (src/App.tsx lines 177-182): after a render with
the new root, if the media stream source and analyser exist, stopLoop then
updatePitch run, both from the new render's closure.  React bails out when
the root is set to its current value, so the effect only runs on an actual
change. -/
def changeRootStep (noteOf : ℚ → String) (r : String) (est : ℚ)
    (s : SchedState) : SchedState :=
  if r = s.root then s
  else
    let s1 := { s with root := r }
    if s1.connected then updatePitch noteOf r est (stopLoop s1) else s1

/-- The events that drive the scheduler: the toggle button (start/stop),
the asynchronous completion of getUserMedia, an animation-frame tick
firing, and a root-selector click.  Each event carries the pitch estimate
that the autocorrelation would return for the detection cycle it may run. -/
inductive Ev where
  | pressToggle (est : ℚ)
  | connectMedia (est : ℚ)
  | fireTick (est : ℚ)
  | selectRoot (r : String) (est : ℚ)

/-- One scheduler step.  The toggle button runs stopAnalysing when started
and init otherwise (src/App.tsx line 195); getUserMedia resolution sets the
media stream source, connects it and runs updatePitch (lines 40-51); an
animation-frame tick consumes the oldest outstanding request and runs the
registered closure; a root click runs the root-change effect. -/
def step (noteOf : ℚ → String) : Ev → SchedState → SchedState
  | Ev.pressToggle est, s =>
      if s.started then stopAnalysing s else initStep noteOf est s
  | Ev.connectMedia est, s =>
      if s.connected then s
      else updatePitch noteOf s.root est
        { s with connected := true, graphConnected := true }
  | Ev.fireTick est, s =>
      match s.pending with
      | [] => s
      | (_, r) :: rest => updatePitch noteOf r est { s with pending := rest }
  | Ev.selectRoot r est, s => changeRootStep noteOf r est s

/-- Runs a sequence of events from a state. -/
def run (noteOf : ℚ → String) (evs : List Ev) (s : SchedState) : SchedState :=
  evs.foldl (fun t e => step noteOf e t) s

/-- The initial component state (src/App.tsx lines 10-22): pitch "261.63",
note "C", solfege "Do", root "C", not started, no stream, no outstanding
request; animation-frame ids start at 1. -/
def initialState : SchedState :=
  { connected := false, graphConnected := false, started := false,
    root := "C", requestId := none, pending := [], nextId := 1,
    pitch := 26163 / 100, note := "C", solfege := some "Do", pubs := [] }

/-- A concrete mid-session state: running in the key of C with one
outstanding animation-frame request, as reached after a start and a few
ticks. -/
def demoRunning : SchedState :=
  { connected := true, graphConnected := true, started := true,
    root := "C", requestId := some 5, pending := [(5, "C")], nextId := 6,
    pitch := 440, note := "A4", solfege := some "la", pubs := [("A4", "C")] }

/-- Modelled from the spec: the fixed silence threshold of the frequency
estimator (spec 4.1 step 1).  The spec fixes no numeric value; its test
properties only require that noise of amplitude 0.001 lies below it, which
the conventional value 0.01 satisfies. -/
def silenceThreshold : ℚ := 1 / 100

/-- Modelled from the spec: the small noise floor used to trim the analysis
window (spec 4.1 step 2).  The spec fixes no numeric value. -/
def noiseFloor : ℚ := 1 / 5

/-- Modelled from the spec: the minimal confidence a correlation peak must
reach (spec 4.1 step 7).  The spec fixes no numeric value. -/
def minConfidence : ℚ := 1 / 100

/-- The mean of the squared samples.  The frame's RMS amplitude is the
square root of this; a comparison `rms < threshold` is expressed on the
squares, which is equivalent for the nonnegative quantities involved and
keeps the model inside the rationals.  An empty frame yields 0 (rational
division by zero is zero). -/
def rmsSq (frame : List ℚ) : ℚ :=
  ((frame.map (fun x => x * x)).sum) / (frame.length : ℚ)

/-- Modelled from the spec (4.1 step 2): trims leading and trailing samples
whose absolute value does not exceed the noise floor, restricting the
autocorrelation to the loud span. -/
def trimFrame (frame : List ℚ) : List ℚ :=
  ((frame.dropWhile (fun x => decide (|x| ≤ noiseFloor))).reverse.dropWhile
      (fun x => decide (|x| ≤ noiseFloor))).reverse

/-- Modelled from the spec (4.1 step 3): the normalized autocorrelation
coefficient at lag `d` — the sum of products of the signal with its
`d`-shifted copy, normalized by the summed squares of the two overlapping
windows. -/
def corrAt (b : List ℚ) (d : Nat) : ℚ :=
  let n := b.length
  let prods := ((List.range (n - d)).map (fun i => b.getD i 0 * b.getD (i + d) 0)).sum
  let e1 := ((List.range (n - d)).map (fun i => b.getD i 0 * b.getD i 0)).sum
  let e2 := ((List.range (n - d)).map (fun i => b.getD (i + d) 0 * b.getD (i + d) 0)).sum
  2 * prods / (e1 + e2)

/-- Modelled from the spec (4.1 step 4): index of the first point where the
correlation curve stops declining (skipping the trivial zero-lag peak). -/
def firstRise : List ℚ → Nat
  | a :: b :: rest => if b < a then 1 + firstRise (b :: rest) else 0
  | _ => 0

/-- Modelled from the spec (4.1 step 4): the lag with the maximum
correlation value at or past `start`, together with that value. -/
def bestLag (c : List ℚ) (start : Nat) : Nat × ℚ :=
  ((List.range c.length).drop start).foldl
    (fun acc i => if acc.2 < c.getD i 0 then (i, c.getD i 0) else acc)
    (start, c.getD start 0)

/-- Modelled from the spec: the frequency estimator `estimate(frame,
sampleRate)` of AutoCorrelate.js, which is not among the available sources.
Follows spec 4.1: (1) return "undetected" immediately when the RMS
amplitude is below the silence threshold; (2) trim the analysis window by
the noise floor; (3) compute the normalized autocorrelation over lags up to
half the (trimmed) frame length; (4) find the maximum past the first
decline; (5) refine the best lag by parabolic interpolation; (6) convert
the refined lag to a frequency; (7) return "undetected" when no qualifying
peak exists, and for frames too short to hold a period. -/
def estimate (frame : List ℚ) (sampleRate : ℚ) : Option ℚ :=
  if rmsSq frame < silenceThreshold ^ 2 then none
  else
    let b := trimFrame frame
    let n := b.length
    if n < 4 then none
    else
      let c := (List.range (n / 2)).map (fun d => corrAt b d)
      let start := firstRise c
      let best := bestLag c start
      if best.2 < minConfidence then none
      else
        let a := c.getD (best.1 - 1) 0
        let m := c.getD best.1 0
        let r := c.getD (best.1 + 1) 0
        let denom := 2 * (2 * m - a - r)
        let shift := if denom = 0 then 0 else (r - a) / denom
        let refined := (best.1 : ℚ) + shift
        if refined ≤ 0 then none else some (sampleRate / refined)

lemma getChromaticScale_length (root : String) : (getChromaticScale root).length = 12 := by
  simp [getChromaticScale]
  decide

lemma startIndexOf_lt (root : String) : startIndexOf root < 12 := by
  unfold startIndexOf
  split
  · next h =>
      have hm : root ∈ flatChromatics := by simpa using h
      fin_cases hm <;> decide
  · split
    · next h =>
        have hm : root ∈ sharpChromatics := by simpa using h
        fin_cases hm <;> decide
    · decide

lemma buildScale_eq_rotate : ∀ s : Nat, s < 12 →
    (List.range flatChromatics.length).map
      (fun i => flatChromatics.getD ((s + i) % flatChromatics.length) "")
      = flatChromatics.rotate s := by decide

lemma getChromaticScale_eq_rotate (root : String) :
    getChromaticScale root = flatChromatics.rotate (startIndexOf root) :=
  buildScale_eq_rotate (startIndexOf root) (startIndexOf_lt root)

lemma mem_flat_of_mem_scale {root x : String} (h : x ∈ getChromaticScale root) :
    x ∈ flatChromatics := by
  rw [getChromaticScale_eq_rotate] at h
  exact List.mem_rotate.mp h

lemma findIdx_of_mem {l : List String} {x : String} (h : x ∈ l) :
    ∃ i, l.findIdx? (fun y => y == x) = some i := by
  cases hf : l.findIdx? (fun y => y == x) with
  | some i => exact ⟨i, rfl⟩
  | none =>
      have hx := List.findIdx?_eq_none_iff.mp hf x h
      simp at hx

lemma findIdx_of_not_mem {l : List String} {x : String} (h : x ∉ l) :
    l.findIdx? (fun y => y == x) = none := by
  apply List.findIdx?_eq_none_iff.mpr
  intro y hy
  exact beq_eq_false_iff_ne.mpr (fun e => h (e ▸ hy))

lemma getSolfege_eq_none_of_not_mem {note root : String}
    (h : stripDigits note ∉ getChromaticScale root) :
    jsIndexOf (getChromaticScale root) (stripDigits note) = -1 ∧
      getSolfege note root = none := by
  have hf := findIdx_of_not_mem h
  refine ⟨by simp [jsIndexOf, hf], ?_⟩
  simp [getSolfege, jsIndexOf, jsArrayGet, hf]

lemma getSolfege_eq_syllable_of_mem {note root : String}
    (hmem : stripDigits note ∈ getChromaticScale root) :
    ∃ i, i < 12 ∧
      (getChromaticScale root).get? i = some (stripDigits note) ∧
      (∀ j, j < i → (getChromaticScale root).get? j ≠ some (stripDigits note)) ∧
      getSolfege note root = solfegeSyllables.get? i := by
  obtain ⟨i, hf⟩ := findIdx_of_mem hmem
  obtain ⟨hlen, hbeq, hfirst⟩ := List.findIdx?_eq_some_iff_getElem.mp hf
  have heq : (getChromaticScale root).get ⟨i, hlen⟩ = stripDigits note := eq_of_beq hbeq
  refine ⟨i, ?_, ?_, ?_, ?_⟩
  · simpa [getChromaticScale_length] using hlen
  · rw [List.get?_eq_getElem?, List.getElem?_eq_getElem hlen]
    exact congrArg some heq
  · intro j hj hcontra
    rw [List.get?_eq_getElem?] at hcontra
    obtain ⟨hjl, hval⟩ := List.getElem?_eq_some.mp hcontra
    exact hfirst j hj (by simp [hval])
  · simp only [getSolfege, jsIndexOf, jsArrayGet, hf]
    norm_num

/-- C1: for every note whose digit-stripped pitch class occurs in the
root-rotated flat chromatic sequence and every root from the flat or sharp
chromatic list, getSolfege strips the octave digits, locates the pitch
class's (first) index in the rotated sequence and returns the syllable at
that same index of the fixed syllable table; in particular
getSolfege "C4" "C" = "do", getSolfege "Eb4" "C" = "me",
getSolfege "D4" "D" = "do" and getSolfege "A3" "C" = "la". -/
theorem getSolfege_maps_index_to_syllable :
    (∀ note root : String, root ∈ flatChromatics ∨ root ∈ sharpChromatics →
      stripDigits note ∈ getChromaticScale root →
      ∃ i, i < 12 ∧
        (getChromaticScale root).get? i = some (stripDigits note) ∧
        (∀ j, j < i → (getChromaticScale root).get? j ≠ some (stripDigits note)) ∧
        getSolfege note root = solfegeSyllables.get? i) ∧
    getSolfege "C4" "C" = some "do" ∧ getSolfege "Eb4" "C" = some "me" ∧
    getSolfege "D4" "D" = some "do" ∧ getSolfege "A3" "C" = some "la" :=
  ⟨fun _ _ _ hmem => getSolfege_eq_syllable_of_mem hmem,
   by decide, by decide, by decide, by decide⟩

/-- Witness for C1 at note "Eb4" and root "C": the hypotheses hold
concretely and the located index carries the syllable "me". -/
theorem getSolfege_maps_index_to_syllable_witness :
    ("C" ∈ flatChromatics ∨ "C" ∈ sharpChromatics) ∧
      stripDigits "Eb4" ∈ getChromaticScale "C" ∧
      (∃ i, i < 12 ∧
        (getChromaticScale "C").get? i = some (stripDigits "Eb4") ∧
        (∀ j, j < i → (getChromaticScale "C").get? j ≠ some (stripDigits "Eb4")) ∧
        getSolfege "Eb4" "C" = solfegeSyllables.get? i) :=
  ⟨Or.inl (by decide), by decide,
    getSolfege_maps_index_to_syllable.1 "Eb4" "C" (Or.inl (by decide)) (by decide)⟩

/-- C2: getChromaticScale returns the 12-element rotation of the canonical
flat chromatic list starting at the root's index, a sharp-spelled root is
translated to its flat equivalent at the same chromatic position, the result
is always a length-12 rotation of the canonical list, and the concrete
rotations for roots "C" and "D" are as listed. -/
theorem getChromaticScale_rotation_spec :
    (∀ root : String, root ∈ flatChromatics →
      (getChromaticScale root).length = 12 ∧
      ∀ i, i < 12 →
        (getChromaticScale root).get? i
          = flatChromatics.get? ((flatChromatics.indexOf root + i) % 12)) ∧
    (∀ root : String, root ∈ sharpChromatics →
      getChromaticScale root
        = getChromaticScale (flatChromatics.getD (sharpChromatics.indexOf root) "")) ∧
    (∀ root : String, ∃ k, k < 12 ∧ getChromaticScale root = flatChromatics.rotate k) ∧
    getChromaticScale "C" = ["C", "Db", "D", "Eb", "E", "F", "Gb", "G", "Ab", "A", "Bb", "B"] ∧
    getChromaticScale "D" = ["D", "Eb", "E", "F", "Gb", "G", "Ab", "A", "Bb", "B", "C", "Db"] := by
  refine ⟨?_, ?_, ?_, by decide, by decide⟩
  · intro root hm
    fin_cases hm <;> exact ⟨by decide, by decide⟩
  · intro root hm
    fin_cases hm <;> decide
  · intro root
    exact ⟨startIndexOf root, startIndexOf_lt root, getChromaticScale_eq_rotate root⟩

/-- Witness for C2 at root "D": the membership hypothesis holds and the
returned sequence indexes the canonical list at (rootIndex + i) mod 12. -/
theorem getChromaticScale_rotation_spec_witness :
    "D" ∈ flatChromatics ∧
      (getChromaticScale "D").length = 12 ∧
      ∀ i, i < 12 →
        (getChromaticScale "D").get? i
          = flatChromatics.get? ((flatChromatics.indexOf "D" + i) % 12) :=
  ⟨by decide, getChromaticScale_rotation_spec.1 "D" (by decide)⟩

/-- C9: getSolfege normalizes only the root, never the note: whenever the
digit-stripped note is absent from the flat-spelled rotated sequence (so in
particular any sharp-spelled note such as "C#4"), the indexOf lookup yields -1
and getSolfege returns undefined, for every root — even though sharp
spellings are accepted for the root itself. -/
theorem getSolfege_note_not_normalized :
    (∀ note root : String, stripDigits note ∉ getChromaticScale root →
      jsIndexOf (getChromaticScale root) (stripDigits note) = -1 ∧
        getSolfege note root = none) ∧
    (∀ root : String, getSolfege "C#4" root = none) ∧
    getChromaticScale "C#" = getChromaticScale "Db" ∧
    getSolfege "Db4" "C#" = some "do" := by
  refine ⟨fun _ _ h => getSolfege_eq_none_of_not_mem h, ?_, by decide, by decide⟩
  intro root
  have hnm : stripDigits "C#4" ∉ getChromaticScale root := by
    intro hmem
    have : stripDigits "C#4" ∈ flatChromatics := mem_flat_of_mem_scale hmem
    simp [stripDigits, flatChromatics] at this
  exact (getSolfege_eq_none_of_not_mem hnm).2

/-- Witness for C9 at note "F#3" and root "C": the absence hypothesis holds
concretely, the lookup yields -1 and no syllable is produced. -/
theorem getSolfege_note_not_normalized_witness :
    stripDigits "F#3" ∉ getChromaticScale "C" ∧
      jsIndexOf (getChromaticScale "C") (stripDigits "F#3") = -1 ∧
      getSolfege "F#3" "C" = none :=
  ⟨by decide, getSolfege_note_not_normalized.1 "F#3" "C" (by decide)⟩

/-- C10: getChromaticScale is total over arbitrary strings; a root in
neither chromatic list leaves the start index at its default 0, so the
function silently returns the canonical C-rooted flat sequence. -/
theorem getChromaticScale_unknown_root_defaults :
    (∀ root : String, root ∉ flatChromatics → root ∉ sharpChromatics →
      startIndexOf root = 0 ∧
      getChromaticScale root = flatChromatics ∧
      getChromaticScale root = getChromaticScale "C") ∧
    getChromaticScale "H" = flatChromatics ∧
    getChromaticScale "" = flatChromatics := by
  refine ⟨?_, by decide, by decide⟩
  intro root h1 h2
  have hz : startIndexOf root = 0 := by simp [startIndexOf, h1, h2]
  have hs : getChromaticScale root = flatChromatics := by
    rw [getChromaticScale_eq_rotate, hz, List.rotate_zero]
  exact ⟨hz, hs, by rw [hs]; decide⟩

/-- Witness for C10 at the unrecognized root "X". -/
theorem getChromaticScale_unknown_root_defaults_witness :
    "X" ∉ flatChromatics ∧ "X" ∉ sharpChromatics ∧
      startIndexOf "X" = 0 ∧
      getChromaticScale "X" = flatChromatics ∧
      getChromaticScale "X" = getChromaticScale "C" :=
  ⟨by decide, by decide,
    getChromaticScale_unknown_root_defaults.1 "X" (by decide) (by decide)⟩

/-- Counterexample for C6: at note "C#4" (clean pitch class "C#", absent
from the rotated sequence) with root "C", getSolfege completes normally and
silently returns the ordinary undefined value; the embedded source function
is pure and total — it contains no logging call, assertion or thrown error,
contrary to the claim that the missing index is logged or asserted. -/
theorem getSolfege_missing_index_silent :
    getSolfege "C#4" "C" = none ∧
      jsIndexOf (getChromaticScale "C") (stripDigits "C#4") = -1 := by decide

/-- C6 as amended: when the lookup index is not found, getSolfege silently
returns undefined (no syllable) — nothing is logged or asserted — and it
never produces one of the twelve syllables as if the lookup had succeeded. -/
theorem getSolfege_missing_index_returns_none :
    ∀ note root : String, stripDigits note ∉ getChromaticScale root →
      getSolfege note root = none ∧
      ∀ s, s ∈ solfegeSyllables → getSolfege note root ≠ some s := by
  intro note root h
  have hn := (getSolfege_eq_none_of_not_mem h).2
  exact ⟨hn, fun s _ hcontra => by simp [hn] at hcontra⟩

/-- Witness for the amended C6 at note "G#3" and root "E". -/
theorem getSolfege_missing_index_returns_none_witness :
    stripDigits "G#3" ∉ getChromaticScale "E" ∧
      getSolfege "G#3" "E" = none ∧
      ∀ s, s ∈ solfegeSyllables → getSolfege "G#3" "E" ≠ some s :=
  ⟨by decide, getSolfege_missing_index_returns_none "G#3" "E" (by decide)⟩

lemma fireTick_synced (noteOf : ℚ → String) (est : ℚ) (u : SchedState) (id : Nat)
    (hp : u.pending = [(id, u.root)]) :
    (step noteOf (Ev.fireTick est) u).requestId = some u.nextId ∧
    (step noteOf (Ev.fireTick est) u).pending = [(u.nextId, u.root)] ∧
    (step noteOf (Ev.fireTick est) u).nextId = u.nextId + 1 ∧
    (step noteOf (Ev.fireTick est) u).root = u.root ∧
    (step noteOf (Ev.fireTick est) u).pubs
      = u.pubs ++ (if validPitch est then [(noteOf est, u.root)] else []) := by
  have hstep : step noteOf (Ev.fireTick est) u
      = updatePitch noteOf u.root est { u with pending := [] } := by
    simp only [step, hp]
  rw [hstep]
  by_cases hv : validPitch est <;> simp [updatePitch, startLoop, hv]

lemma runFires_pubs (noteOf : ℚ → String) :
    ∀ (ests : List ℚ) (u : SchedState) (id : Nat),
      u.pending = [(id, u.root)] →
      (run noteOf (ests.map Ev.fireTick) u).pubs
        = u.pubs ++ (ests.filter (fun e => decide (validPitch e))).map
            (fun e => (noteOf e, u.root)) ∧
      (run noteOf (ests.map Ev.fireTick) u).root = u.root := by
  intro ests
  induction ests with
  | nil => intro u id hp; simp [run]
  | cons e tl ih =>
      intro u id hp
      obtain ⟨h1, h2, h3, h4, h5⟩ := fireTick_synced noteOf e u id hp
      have hrun : run noteOf ((e :: tl).map Ev.fireTick) u
          = run noteOf (tl.map Ev.fireTick) (step noteOf (Ev.fireTick e) u) := by
        simp [run]
      have hnext := ih (step noteOf (Ev.fireTick e) u) u.nextId (by rw [h2, h4])
      rw [hrun]
      refine ⟨?_, by rw [hnext.2, h4]⟩
      rw [hnext.1, h5, h4]
      by_cases hv : validPitch e <;> simp [hv]

/-- C3: the single-flight guarantee fails on the code.  The trace models:
the user starts the tuner, the microphone connects (first tick chain
scheduled), the user stops, then clicks a root button while stopped — the
root-change effect still runs because `mediaStreamSource.current` remains
set, so it schedules a tick even though analysis is stopped — and then
presses Start again.  `init` runs `updatePitch` without first running
`stopLoop`, `updatePitch` overwrites the request ref with `undefined` on
entry, and `startLoop` therefore schedules a second request while the first
is still outstanding: two animation-frame requests exist at once, and the
two concurrent tick chains persist across subsequent ticks.  This
contradicts the source's own comments ("to avoid concurrent instances of
updatePitch() like a semaphore", "so that there's one request at a time"). -/
theorem single_flight_violated :
    (run (fun _ => "C")
      [Ev.pressToggle (-1), Ev.connectMedia (-1), Ev.pressToggle (-1),
       Ev.selectRoot "D" (-1), Ev.pressToggle (-1)] initialState).pending.length = 2 ∧
    (run (fun _ => "C")
      [Ev.pressToggle (-1), Ev.connectMedia (-1), Ev.pressToggle (-1),
       Ev.selectRoot "D" (-1), Ev.pressToggle (-1), Ev.fireTick (-1), Ev.fireTick (-1)]
      initialState).pending.length = 2 := by decide

/-- C4: when the root changes while the detection loop is running (media
stream connected, a single outstanding request aligned with the request
ref), the root-change effect cancels the scheduled-but-not-yet-fired
request via cancelAnimationFrame and immediately runs a fresh detection
cycle: the state afterwards holds root r with exactly one fresh request
capturing r, the transitional cycle (when the estimate is valid) publishes
the syllable of the new root paired with the note it just computed, and
every later tick publication pairs that tick's own note with the new
root — never an old note with the new root or a new note with the old
root. -/
theorem rootChange_cancels_and_republishes
    (noteOf : ℚ → String) (s : SchedState) (r : String) (est : ℚ) (rid : Nat)
    (hconn : s.connected = true) (hne : r ≠ s.root)
    (hid : s.requestId = some rid) (hp : s.pending = [(rid, s.root)])
    (hfresh : rid < s.nextId) :
    (∀ p ∈ s.pending, ∀ q ∈ (step noteOf (Ev.selectRoot r est) s).pending, p.1 ≠ q.1) ∧
    (step noteOf (Ev.selectRoot r est) s).root = r ∧
    (step noteOf (Ev.selectRoot r est) s).requestId = some s.nextId ∧
    (step noteOf (Ev.selectRoot r est) s).pending = [(s.nextId, r)] ∧
    (validPitch est →
      (step noteOf (Ev.selectRoot r est) s).note = noteOf est ∧
      (step noteOf (Ev.selectRoot r est) s).solfege = getSolfege (noteOf est) r ∧
      (step noteOf (Ev.selectRoot r est) s).pubs = s.pubs ++ [(noteOf est, r)]) ∧
    (¬ validPitch est → (step noteOf (Ev.selectRoot r est) s).pubs = s.pubs) ∧
    (∀ ests : List ℚ,
      (run noteOf (ests.map Ev.fireTick) (step noteOf (Ev.selectRoot r est) s)).pubs
        = (step noteOf (Ev.selectRoot r est) s).pubs
          ++ (ests.filter (fun e => decide (validPitch e))).map
              (fun e => (noteOf e, r))) := by
  have ht : step noteOf (Ev.selectRoot r est) s
      = updatePitch noteOf r est { s with root := r, requestId := none, pending := [] } := by
    simp [step, changeRootStep, hne, hconn, stopLoop, hid, hp]
  have hroot : (step noteOf (Ev.selectRoot r est) s).root = r := by
    rw [ht]; by_cases hv : validPitch est <;> simp [updatePitch, startLoop, hv]
  have hpend : (step noteOf (Ev.selectRoot r est) s).pending = [(s.nextId, r)] := by
    rw [ht]; by_cases hv : validPitch est <;> simp [updatePitch, startLoop, hv]
  refine ⟨?_, hroot, ?_, hpend, ?_, ?_, ?_⟩
  · intro p hpm q hqm
    rw [hp] at hpm
    rw [hpend] at hqm
    simp at hpm hqm
    subst hpm
    subst hqm
    simp only [ne_eq]
    omega
  · rw [ht]; by_cases hv : validPitch est <;> simp [updatePitch, startLoop, hv]
  · intro hv
    rw [ht]
    refine ⟨?_, ?_, ?_⟩ <;> simp [updatePitch, startLoop, hv]
  · intro hv
    rw [ht]; simp [updatePitch, startLoop, hv]
  · intro ests
    have := runFires_pubs noteOf ests (step noteOf (Ev.selectRoot r est) s) s.nextId
      (by rw [hpend, hroot])
    rw [this.1, hroot]

/-- Witness for C4: from the concrete running state demoRunning (key C,
request 5 outstanding), selecting root "D" with a valid 440 Hz estimate
cancels request 5, schedules fresh request 6 capturing "D", and publishes
the transitional syllable against "D". -/
theorem rootChange_cancels_and_republishes_witness :
    demoRunning.connected = true ∧ ("D" : String) ≠ demoRunning.root ∧
      (step (fun _ => "A4") (Ev.selectRoot "D" 440) demoRunning).root = "D" ∧
      (step (fun _ => "A4") (Ev.selectRoot "D" 440) demoRunning).pending = [(6, "D")] := by
  have h := rootChange_cancels_and_republishes (fun _ => "A4") demoRunning "D" 440 5
    rfl (by decide) rfl rfl (by decide)
  exact ⟨rfl, by decide, h.2.1, h.2.2.2.1⟩

/-- C5: on a tick, the DetectionState triple (pitch, note, syllable) is
updated, in a single publication, exactly when the estimate passes the
validity test — nonzero (JavaScript truthiness), above the exclusive lower
bound and strictly below 7000 Hz; for a present (positive) pitch the test
is exactly "strictly below 7000".  When the estimate is the undetected
sentinel -1 or out of range, no state field changes, the (total, never
throwing) tick still completes and the next animation frame is still
requested. -/
theorem tick_publishes_iff_valid
    (noteOf : ℚ → String) (capturedRoot : String) (est : ℚ) (s : SchedState) :
    (validPitch est →
      (updatePitch noteOf capturedRoot est s).pitch = est ∧
      (updatePitch noteOf capturedRoot est s).note = noteOf est ∧
      (updatePitch noteOf capturedRoot est s).solfege = getSolfege (noteOf est) capturedRoot ∧
      (updatePitch noteOf capturedRoot est s).pubs = s.pubs ++ [(noteOf est, capturedRoot)]) ∧
    (¬ validPitch est →
      (updatePitch noteOf capturedRoot est s).pitch = s.pitch ∧
      (updatePitch noteOf capturedRoot est s).note = s.note ∧
      (updatePitch noteOf capturedRoot est s).solfege = s.solfege ∧
      (updatePitch noteOf capturedRoot est s).pubs = s.pubs) ∧
    (updatePitch noteOf capturedRoot est s).requestId = some s.nextId ∧
    (updatePitch noteOf capturedRoot est s).pending
      = s.pending ++ [(s.nextId, capturedRoot)] ∧
    ¬ validPitch (-1 : ℚ) ∧
    (∀ e : ℚ, 0 < e → (validPitch e ↔ e < 7000)) := by
  refine ⟨?_, ?_, ?_, ?_, by decide, ?_⟩
  · intro hv
    refine ⟨?_, ?_, ?_, ?_⟩ <;> simp [updatePitch, startLoop, hv]
  · intro hv
    refine ⟨?_, ?_, ?_, ?_⟩ <;> simp [updatePitch, startLoop, hv]
  · by_cases hv : validPitch est <;> simp [updatePitch, startLoop, hv]
  · by_cases hv : validPitch est <;> simp [updatePitch, startLoop, hv]
  · intro e he
    unfold validPitch
    constructor
    · exact fun h => h.2.2
    · exact fun h => ⟨ne_of_gt he, by linarith, h⟩

/-- Witness for C5: a valid 440 Hz estimate publishes, and the undetected
sentinel -1 leaves every published field unchanged while still requesting
the next tick. -/
theorem tick_publishes_iff_valid_witness :
    (validPitch 440 ∧
      (updatePitch (fun _ => "A4") "C" 440 initialState).solfege
        = getSolfege "A4" "C") ∧
    (¬ validPitch (-1 : ℚ) ∧
      (updatePitch (fun _ => "A4") "C" (-1) initialState).solfege
        = initialState.solfege ∧
      (updatePitch (fun _ => "A4") "C" (-1) initialState).pending
        = initialState.pending ++ [(initialState.nextId, "C")]) := by
  refine ⟨⟨by decide, ?_⟩, ⟨by decide, ?_, ?_⟩⟩
  · exact ((tick_publishes_iff_valid (fun _ => "A4") "C" 440 initialState).1
      (by decide)).2.2.1
  · exact ((tick_publishes_iff_valid (fun _ => "A4") "C" (-1) initialState).2.1
      (by decide)).2.2.1
  · exact (tick_publishes_iff_valid (fun _ => "A4") "C" (-1) initialState).2.2.2.1

/-- C8: stopAnalysing cancels the scheduled tick, disconnects the capture
stream from the analyser and clears only the started flag; the last
published pitch, note and solfege values, the selected root, the
publication log and the media-stream ref (the capture device stays
acquired) are all left unchanged. -/
theorem stopAnalysing_spec (s : SchedState) (rid : Nat)
    (hid : s.requestId = some rid) (hp : s.pending = [(rid, s.root)]) :
    (stopAnalysing s).pending = [] ∧
    (stopAnalysing s).requestId = none ∧
    (stopAnalysing s).graphConnected = false ∧
    (stopAnalysing s).started = false ∧
    (stopAnalysing s).pitch = s.pitch ∧
    (stopAnalysing s).note = s.note ∧
    (stopAnalysing s).solfege = s.solfege ∧
    (stopAnalysing s).root = s.root ∧
    (stopAnalysing s).connected = s.connected ∧
    (stopAnalysing s).pubs = s.pubs := by
  refine ⟨?_, ?_, ?_, ?_, ?_, ?_, ?_, ?_, ?_, ?_⟩ <;>
    simp [stopAnalysing, stopLoop, hid, hp]

/-- Witness for C8 at the concrete running state demoRunning. -/
theorem stopAnalysing_spec_witness :
    (stopAnalysing demoRunning).pending = [] ∧
      (stopAnalysing demoRunning).started = false ∧
      (stopAnalysing demoRunning).solfege = demoRunning.solfege ∧
      (stopAnalysing demoRunning).note = demoRunning.note := by
  have h := stopAnalysing_spec demoRunning 5 rfl rfl
  exact ⟨h.1, h.2.2.2.1, h.2.2.2.2.2.2.1, h.2.2.2.2.2.1⟩

/-- C7: every frame whose RMS amplitude is below the fixed silence
threshold is reported as "undetected" — in particular every all-zero
frame, of any length. -/
theorem estimate_silence_undetected :
    (∀ (frame : List ℚ) (sampleRate : ℚ),
      rmsSq frame < silenceThreshold ^ 2 → estimate frame sampleRate = none) ∧
    (∀ (n : Nat) (sampleRate : ℚ),
      estimate (List.replicate n 0) sampleRate = none) := by
  have key : ∀ (frame : List ℚ) (sampleRate : ℚ),
      rmsSq frame < silenceThreshold ^ 2 → estimate frame sampleRate = none := by
    intro frame sampleRate h
    simp only [estimate, if_pos h]
  refine ⟨key, ?_⟩
  intro n sampleRate
  apply key
  have hz : rmsSq (List.replicate n (0 : ℚ)) = 0 := by
    simp [rmsSq, List.map_replicate]
  rw [hz]
  norm_num [silenceThreshold]

/-- Witness for C7 at a concrete quiet frame: four samples of amplitude
0.001 (the spec's own example of sub-threshold input). -/
theorem estimate_silence_undetected_witness :
    rmsSq [1 / 1000, -1 / 1000, 1 / 1000, -1 / 1000] < silenceThreshold ^ 2 ∧
      estimate [1 / 1000, -1 / 1000, 1 / 1000, -1 / 1000] 44100 = none :=
  ⟨by norm_num [rmsSq, silenceThreshold],
    estimate_silence_undetected.1 [1 / 1000, -1 / 1000, 1 / 1000, -1 / 1000] 44100
      (by norm_num [rmsSq, silenceThreshold])⟩

end SolfegeTuner
